import Mathlib

/-!
Shallow embedding of `src/bloom.c` (barrust/bloom, v1.7.5), a Bloom filter
with derived sizing parameters, an in-memory or memory-mapped byte array,
and binary/hex serialization.

Modelling conventions:
* C `uint64_t` / `unsigned int` / `long` values are `ℕ`, with wrap-around
  (`% 2 ^ 64`) written explicitly where the C code can overflow, and range
  facts (`< 2 ^ 64`, `< 2 ^ 32`) taken as hypotheses where they matter.
* The C `int` temporary in `bloom_filter_current_false_positive_rate` is
  modelled by `toInt32`, the two's-complement reading of the low 32 bits.
* C `float` / `double` arithmetic is modelled over `ℝ`.  The single `float`
  field `false_positive_probability` is represented by two views, the real
  value `false_positive_probability : ℝ` and the 32-bit pattern
  `fpp_bits : ℕ` (the same 4 bytes in C); `float32val` is the IEEE-754
  binary32 decoding that links them.
* The byte array `bloom` is a `List ℕ` of bytes; C reads out of bounds are
  totalized with `List.getD _ _ 0` and writes with `List.set` (a no-op out
  of range) — valid filters stay in bounds.
* File-system effects are reduced to their visible outcomes: whether an
  `fopen` succeeds is a boolean parameter, and the on-disk trailer write in
  the insert path does not change any filter field, so it does not appear.
-/

/-- Modelled from the spec: `bloom.h` is not under `src/`; it defines the
success result of the library operations (spec §4.4, "true"/success). -/
def BLOOM_SUCCESS : ℤ := 0

/-- Modelled from the spec: `bloom.h` is not under `src/`; it defines the
failure result of the library operations (spec §7, failure conditions). -/
def BLOOM_FAILURE : ℤ := -1

/-- Hash-function plug-in contract (spec §6): from a number of hashes and a
key string (a byte list in C), produce that many 64-bit hash values. -/
def HashFunction : Type := ℕ → List ℕ → List ℕ

/-- Error taxonomy of spec §7 for the creation paths; the C code collapses
both to the integer `BLOOM_FAILURE`, distinguished here by which guard
fired (the guards appear in source order in the definitions below). -/
inductive BloomError where
  | invalidParams : BloomError
  | fileOpenFailure : BloomError
deriving DecidableEq

/-- The `BloomFilter` struct of `bloom.h`, with the modelling conventions
above (pointer-only fields `filepointer` and `__filesize` are not needed by
any claim and are omitted; `__is_on_disk` is kept as a flag). -/
structure BloomFilter where
  estimated_elements : ℕ
  false_positive_probability : ℝ
  fpp_bits : ℕ
  number_bits : ℕ
  number_hashes : ℕ
  bloom_length : ℕ
  bloom : List ℕ
  elements_added : ℕ
  hash_function : HashFunction
  __is_on_disk : Bool

/-- The constant `LOG_TWO_SQUARED = 0.4804530139182` of `bloom.c` line 27. -/
noncomputable def LOG_TWO_SQUARED : ℝ := 0.4804530139182

/-- The derivation `calculate_optimal_hashes` of `bloom.c` lines 290-301,
returning `(number_bits, number_hashes, bloom_length)`:
`m = ceil(-n * log p / LOG_TWO_SQUARED)`, `k = round(log 2 * m / n)`
(C `round`, half away from zero; the argument is nonnegative, so it is
`⌊x + 1/2⌋`), `bloom_length = ceil(m / 8)`. -/
noncomputable def calculate_optimal_hashes (n : ℕ) (p : ℝ) : ℕ × ℕ × ℕ :=
  let m : ℕ := (⌈(-(n : ℝ) * Real.log p) / LOG_TWO_SQUARED⌉).toNat
  let k : ℕ := (⌊Real.log 2 * (m : ℝ) / (n : ℝ) + 1 / 2⌋).toNat
  let bl : ℕ := (⌈(m : ℝ) / 8⌉).toNat
  (m, k, bl)

/-- IEEE-754 binary32 decoding of a 32-bit pattern to its real value
(infinities and NaNs, exponent field 255, carry no real value and are
mapped to 0; they never arise from a valid probability).  This links the
two views of the C `float` field. -/
noncomputable def float32val (w : ℕ) : ℝ :=
  let sign : ℕ := w / 2 ^ 31 % 2
  let expo : ℕ := w / 2 ^ 23 % 2 ^ 8
  let frac : ℕ := w % 2 ^ 23
  let mag : ℝ :=
    if expo = 0 then (frac : ℝ) / 2 ^ 23 * (2 : ℝ) ^ (-(126 : ℤ))
    else if expo = 255 then 0
    else (1 + (frac : ℝ) / 2 ^ 23) * (2 : ℝ) ^ ((expo : ℤ) - 127)
  if sign = 1 then -mag else mag

/-- The `check_bit` macro of `bloom.c` line 15:
`A[k / 8] & (1 << (k % 8))`. -/
def check_bit (A : List ℕ) (k : ℕ) : ℕ :=
  A.getD (k / 8) 0 &&& (1 <<< (k % 8))

/-- One iteration of the bit-setting loop of `bloom_filter_add_string_alt`
(`bloom.c` line 153): `A[j / 8] |= (1 << (j % 8))` for a bit index `j`. -/
def set_bit (A : List ℕ) (j : ℕ) : List ℕ :=
  A.set (j / 8) (A.getD (j / 8) 0 ||| (1 <<< (j % 8)))

/-- The bit-setting loop of `bloom_filter_add_string_alt` over a list of
bit indices. -/
def setBits (A : List ℕ) (js : List ℕ) : List ℕ :=
  js.foldl set_bit A

/-- `bloom_filter_set_hash_function` of `bloom.c` lines 71-73 (a `NULL`
argument selects the default; here the caller passes the already-resolved
function, see `md5_hash_default`). -/
def bloom_filter_set_hash_function (bf : BloomFilter) (hash_function : HashFunction) :
    BloomFilter :=
  { bf with hash_function := hash_function }

/-- `bloom_filter_calculate_hashes` of `bloom.c` lines 138-140. -/
def bloom_filter_calculate_hashes (bf : BloomFilter) (str : List ℕ)
    (number_hashes : ℕ) : List ℕ :=
  bf.hash_function number_hashes str

/-- `bloom_filter_add_string_alt` of `bloom.c` lines 143-167.  Returns the
updated filter and the result code.  The loop sets bit `hashes[i] %
number_bits` for each `i < number_hashes`; `elements_added` is a `uint64_t`
and increments with wrap-around.  The on-disk trailer write (lines 158-165)
touches only the backing file, no filter field. -/
def bloom_filter_add_string_alt (bf : BloomFilter) (hashes : List ℕ)
    (number_hashes_passed : ℕ) : BloomFilter × ℤ :=
  if number_hashes_passed < bf.number_hashes then
    (bf, BLOOM_FAILURE)
  else
    let bloom2 := setBits bf.bloom
      ((List.range bf.number_hashes).map (fun i => hashes.getD i 0 % bf.number_bits))
    ({ bf with bloom := bloom2,
               elements_added := (bf.elements_added + 1) % 2 ^ 64 }, BLOOM_SUCCESS)

/-- `bloom_filter_check_string_alt` of `bloom.c` lines 170-185: success iff
every checked bit is non-zero (the C loop breaks at the first zero bit and
returns failure; the result is the same). -/
def bloom_filter_check_string_alt (bf : BloomFilter) (hashes : List ℕ)
    (number_hashes_passed : ℕ) : ℤ :=
  if number_hashes_passed < bf.number_hashes then
    BLOOM_FAILURE
  else
    if (List.range bf.number_hashes).all
        (fun i => check_bit bf.bloom (hashes.getD i 0 % bf.number_bits) != 0) then
      BLOOM_SUCCESS
    else
      BLOOM_FAILURE

/-- `bloom_filter_add_string` of `bloom.c` lines 123-128. -/
def bloom_filter_add_string (bf : BloomFilter) (str : List ℕ) : BloomFilter × ℤ :=
  let hashes := bloom_filter_calculate_hashes bf str bf.number_hashes
  bloom_filter_add_string_alt bf hashes bf.number_hashes

/-- `bloom_filter_check_string` of `bloom.c` lines 131-136. -/
def bloom_filter_check_string (bf : BloomFilter) (str : List ℕ) : ℤ :=
  let hashes := bloom_filter_calculate_hashes bf str bf.number_hashes
  bloom_filter_check_string_alt bf hashes bf.number_hashes

/-- The zeroing loop of `bloom_filter_clear` (`bloom.c` lines 97-99):
`bloom[i] = 0` for `i < bloom_length`. -/
def zeroBytes (bloom_length : ℕ) (A : List ℕ) : List ℕ :=
  (List.range bloom_length).foldl (fun B i => B.set i 0) A

/-- `bloom_filter_clear` of `bloom.c` lines 95-102. -/
def bloom_filter_clear (bf : BloomFilter) : BloomFilter :=
  { bf with bloom := zeroBytes bf.bloom_length bf.bloom, elements_added := 0 }

/-- `bloom_filter_destroy` of `bloom.c` lines 75-93: releases the backing
store and zeroes the scalar fields (`bloom_length` is not in the zeroed
list in the source and is kept; the freed `bloom` pointer becomes the empty
array, the `NULL` hash function the function returning no hashes). -/
noncomputable def bloom_filter_destroy (bf : BloomFilter) : BloomFilter :=
  { estimated_elements := 0
    false_positive_probability := 0
    fpp_bits := 0
    number_bits := 0
    number_hashes := 0
    bloom_length := bf.bloom_length
    bloom := []
    elements_added := 0
    hash_function := fun _ _ => []
    __is_on_disk := false }

/-- `bloom_filter_init_alt` of `bloom.c` lines 37-49: the parameter guard
runs first (`estimated_elements <= 0` on a `uint64_t` means `= 0`, and
`estimated_elements > UINT64_MAX` is always false); only after it passes
are the fields written and the byte array allocated (zero-initialized by
`calloc`), so a failure produces no partial state — modelled by the
`Except` returning no filter on error. -/
noncomputable def bloom_filter_init_alt (n : ℕ) (p : ℝ) (p_bits : ℕ)
    (hash_function : HashFunction) : Except BloomError BloomFilter :=
  if n = 0 ∨ p ≤ 0 ∨ 1 ≤ p then
    .error .invalidParams
  else
    let t := calculate_optimal_hashes n p
    .ok { estimated_elements := n
          false_positive_probability := p
          fpp_bits := p_bits
          number_bits := t.1
          number_hashes := t.2.1
          bloom_length := t.2.2
          bloom := List.replicate t.2.2 0
          elements_added := 0
          hash_function := hash_function
          __is_on_disk := false }

/-- `bloom_filter_init_on_disk_alt` of `bloom.c` lines 51-69: the same
parameter guard runs first; then the backing file is created (`fopen`,
which may fail), a placeholder trailer of zero bytes plus the scalars is
written, and the file is reopened and mapped by
`bloom_filter_import_on_disk_alt` (a second `fopen` that may fail; the
`exit(1)` paths on `open`/`mmap` failure inside `read_from_file` abort the
process and are outside this model).  The two booleans say whether the two
`fopen` calls succeed.  On success the mapped array holds the zero bytes
just written. -/
noncomputable def bloom_filter_init_on_disk_alt (n : ℕ) (p : ℝ) (p_bits : ℕ)
    (fopen1_ok fopen2_ok : Bool) (hash_function : HashFunction) :
    Except BloomError BloomFilter :=
  if n = 0 ∨ p ≤ 0 ∨ 1 ≤ p then
    .error .invalidParams
  else if fopen1_ok = false then
    .error .fileOpenFailure
  else if fopen2_ok = false then
    .error .fileOpenFailure
  else
    let t := calculate_optimal_hashes n p
    .ok { estimated_elements := n
          false_positive_probability := p
          fpp_bits := p_bits
          number_bits := t.1
          number_hashes := t.2.1
          bloom_length := t.2.2
          bloom := List.replicate t.2.2 0
          elements_added := 0
          hash_function := hash_function
          __is_on_disk := true }

/-- Two's-complement reading of the low 32 bits of an unsigned value: the
(gcc/clang) conversion of an out-of-range integer to the 32-bit C `int`. -/
def toInt32 (v : ℕ) : ℤ :=
  if v % 2 ^ 32 < 2 ^ 31 then (v % 2 ^ 32 : ℕ) else (v % 2 ^ 32 : ℕ) - 2 ^ 32

/-- `bloom_filter_current_false_positive_rate` of `bloom.c` lines 187-192.
`int num = bf->number_hashes * -1 * bf->elements_added` evaluates left to
right: `number_hashes * -1` in `unsigned int` arithmetic (mod `2 ^ 32`),
then times the `uint64_t` `elements_added` (mod `2 ^ 64`), then converted
to the 32-bit `int` `num`.  Then `(1 - exp(num / number_bits)) ^
number_hashes`. -/
noncomputable def bloom_filter_current_false_positive_rate (bf : BloomFilter) : ℝ :=
  let num : ℤ :=
    toInt32 (bf.number_hashes * (2 ^ 32 - 1) % 2 ^ 32 * bf.elements_added % 2 ^ 64)
  let d : ℝ := (num : ℝ) / (bf.number_bits : ℝ)
  let e : ℝ := Real.exp d
  (1 - e) ^ bf.number_hashes

/-- Modelled from the spec (§4.2): the default chained-digest hash family
`md5_hash_default` of `bloom.c` lines 351-367.  The MD5 digest itself comes
from an external library (`openssl`), not from this repository, and is a
parameter `MD5`; round 0 digests the key, each later round digests the
previous 16-byte digest, and the first 8 digest bytes are read as a 64-bit
little-endian integer.  Determinism — same key, same hash tuple — holds for
any `MD5` because this is a pure function. -/
def md5_hash_default (MD5 : List ℕ → List ℕ) (num_hashes : ℕ) (str : List ℕ) :
    List ℕ :=
  let step := fun (acc : List ℕ × List ℕ) (i : ℕ) =>
    let digest := MD5 (if i = 0 then str else acc.2)
    (acc.1 ++ [(List.range 8).foldl (fun a j => a + digest.getD j 0 * 2 ^ (8 * j)) 0],
     digest)
  ((List.range num_hashes).foldl step ([], [])).1

/-- The character `printf` emits for one hex digit (`%x`: `0`-`9`,
lowercase `a`-`f`). -/
def hexDigitChar (n : ℕ) : Char :=
  if n < 10 then Char.ofNat (48 + n) else Char.ofNat (87 + n)

/-- Fixed-width zero-padded lowercase hex rendering, most significant digit
first: the `%02x` / `%016llx` / `%08x` conversions used by
`bloom_filter_export_hex_string` (for values below `16 ^ width`, which
`unsigned char` / `uint64_t` / `uint32_t` guarantee, the printed width is
exactly `width`). -/
def toHexFixed : ℕ → ℕ → List Char
  | 0, _ => []
  | w + 1, n => toHexFixed w (n / 16) ++ [hexDigitChar (n % 16)]

/-- Numeric value of one hex character as `strtoull` / `sscanf %x` read it
(digits, uppercase letters, lowercase letters). -/
def hexCharVal (c : Char) : ℕ :=
  if 48 ≤ c.toNat ∧ c.toNat ≤ 57 then c.toNat - 48
  else if 65 ≤ c.toNat ∧ c.toNat ≤ 70 then c.toNat - 55
  else c.toNat - 87

/-- Value of a hex-digit string, most significant digit first: the parsing
done by `strtoull(_, NULL, 16)` and `sscanf` with `%x` / `%2hhx` on the
fixed-width all-hex-digit substrings cut out by
`bloom_filter_import_hex_string_alt`. -/
def parseHexNat (cs : List Char) : ℕ :=
  cs.foldl (fun a c => 16 * a + hexCharVal c) 0

/-- `bloom_filter_export_hex_string` of `bloom.c` lines 237-250: two hex
characters per byte of the bit array (the loop runs over `bloom_length`,
the length of `bloom`), then 16 hex digits of `estimated_elements`, 16 of
`elements_added`, and 8 of the `float` bit pattern of
`false_positive_probability` (`*(unsigned int*)&...`). -/
def bloom_filter_export_hex_string (bf : BloomFilter) : List Char :=
  (bf.bloom.map (fun b => toHexFixed 2 b)).flatten
    ++ toHexFixed 16 bf.estimated_elements
    ++ toHexFixed 16 bf.elements_added
    ++ toHexFixed 8 bf.fpp_bits

/-- `bloom_filter_import_hex_string_alt` of `bloom.c` lines 252-281: fails
on odd string length; otherwise reads the trailer as the last 8 (float bit
pattern), then 16 (`elements_added`), then 16 (`estimated_elements`) hex
characters, recomputes the derived parameters from the parsed fields
(`calculate_optimal_hashes`), allocates a fresh `bloom_length`-byte array
and fills byte `i` from the two hex characters at offset `2 * i`.  The
parsed `float` is the decoded bit pattern. -/
noncomputable def bloom_filter_import_hex_string_alt (hex : List Char)
    (hash_function : HashFunction) : Option BloomFilter :=
  if hex.length % 2 ≠ 0 then
    none
  else
    let len := hex.length
    let t_fpr := parseHexNat ((hex.drop (len - 8)).take 8)
    let ins_els := parseHexNat ((hex.drop (len - 24)).take 16)
    let est_els := parseHexNat ((hex.drop (len - 40)).take 16)
    let p := float32val t_fpr
    let t := calculate_optimal_hashes est_els p
    some { estimated_elements := est_els
           false_positive_probability := p
           fpp_bits := t_fpr
           number_bits := t.1
           number_hashes := t.2.1
           bloom_length := t.2.2
           bloom := (List.range t.2.2).map
             (fun i => parseHexNat ((hex.drop (2 * i)).take 2))
           elements_added := ins_els
           hash_function := hash_function
           __is_on_disk := false }

/-- `bloom_filter_export_size` of `bloom.c` lines 283-285. -/
def bloom_filter_export_size (bf : BloomFilter) : ℕ :=
  bf.bloom_length + 2 * 8 + 4

/-- One mutating insert call, for quantifying over "every subsequent"
operation sequence between an insert and a check: either
`bloom_filter_add_string` on a key or `bloom_filter_add_string_alt` on
precomputed hashes (checks and exports read but never write the filter,
so they are pure functions in this model and need no entry here). -/
inductive AddOp where
  | str (key : List ℕ) : AddOp
  | alt (hashes : List ℕ) (number_hashes_passed : ℕ) : AddOp

/-- Run a sequence of insert calls, keeping the updated filter. -/
def runAdds (bf : BloomFilter) (ops : List AddOp) : BloomFilter :=
  ops.foldl (fun b op =>
    match op with
    | .str key => (bloom_filter_add_string b key).1
    | .alt hashes nhp => (bloom_filter_add_string_alt b hashes nhp).1) bf

/-- Proof-side view of one bit of the byte array: bit `j % 8` of byte
`j / 8` (the addressing scheme of the `check_bit` / set-bit macros). -/
def bitGet (A : List ℕ) (j : ℕ) : Bool :=
  (A.getD (j / 8) 0).testBit (j % 8)

/-- Concrete filters used to instantiate the theorems below on closed
inputs (the hash function returns the constant hash 3, `number_hashes`
times; the real-number view of the probability field is irrelevant to the
instantiated statements). -/
noncomputable def sampleFilter (k m bl : ℕ) (bloom : List ℕ) (ea : ℕ) : BloomFilter :=
  { estimated_elements := 10
    false_positive_probability := 0
    fpp_bits := 0
    number_bits := m
    number_hashes := k
    bloom_length := bl
    bloom := bloom
    elements_added := ea
    hash_function := fun n _ => List.replicate n 3
    __is_on_disk := false }

/-- Concrete consistent filter for instantiating the hex round-trip: the
float bit pattern `0x3C23D70A` (the C literal `0.01f`, decimal
`1008981770`), `estimated_elements 1`, an all-zero byte array, and the
parameters derived from those fields by `calculate_optimal_hashes`. -/
noncomputable def roundtripFilter : BloomFilter :=
  { estimated_elements := 1
    false_positive_probability := float32val 1008981770
    fpp_bits := 1008981770
    number_bits := (calculate_optimal_hashes 1 (float32val 1008981770)).1
    number_hashes := (calculate_optimal_hashes 1 (float32val 1008981770)).2.1
    bloom_length := (calculate_optimal_hashes 1 (float32val 1008981770)).2.2
    bloom := List.replicate (calculate_optimal_hashes 1 (float32val 1008981770)).2.2 0
    elements_added := 0
    hash_function := fun _ _ => []
    __is_on_disk := false }

/-!  Lemmas about single bits and the bit-setting loop. -/

theorem check_bit_ne_zero_iff (A : List ℕ) (j : ℕ) :
    check_bit A j ≠ 0 ↔ bitGet A j = true := by
  unfold check_bit bitGet
  rw [Nat.one_shiftLeft, Nat.and_two_pow]
  cases h : (A.getD (j / 8) 0).testBit (j % 8) <;> simp [h]

theorem set_bit_length (A : List ℕ) (j : ℕ) : (set_bit A j).length = A.length := by
  unfold set_bit
  exact List.length_set A _ _

theorem setBits_length (js : List ℕ) : ∀ A : List ℕ, (setBits A js).length = A.length := by
  induction js with
  | nil => intro A; rfl
  | cons j js ih =>
    intro A
    show (setBits (set_bit A j) js).length = A.length
    rw [ih (set_bit A j), set_bit_length]

theorem bitGet_set_bit_self (A : List ℕ) (j : ℕ) (h : j / 8 < A.length) :
    bitGet (set_bit A j) j = true := by
  unfold bitGet set_bit
  rw [List.getD_eq_getElem?_getD, List.getElem?_set_self h]
  simp [Nat.one_shiftLeft, Nat.testBit_lor, Nat.testBit_two_pow_self]

theorem bitGet_set_bit_mono (A : List ℕ) (j j2 : ℕ) (h : bitGet A j = true) :
    bitGet (set_bit A j2) j = true := by
  unfold bitGet at h ⊢
  unfold set_bit
  rw [List.getD_eq_getElem?_getD] at h ⊢
  rw [List.getElem?_set']
  rcases eq_or_ne (j2 / 8) (j / 8) with heq | hne
  · rw [if_pos heq, heq]
    cases hb : A[j / 8]? with
    | none =>
      rw [hb] at h
      simp at h
    | some b =>
      rw [hb] at h
      simp only [Option.getD_some] at h
      show (A.getD (j / 8) 0 ||| 1 <<< (j2 % 8)).testBit (j % 8) = true
      have hbv : A.getD (j / 8) 0 = b := by
        rw [List.getD_eq_getElem?_getD, hb]
        rfl
      rw [hbv, Nat.one_shiftLeft, Nat.testBit_lor, h, Bool.true_or]
  · rw [if_neg hne]
    exact h

theorem bitGet_setBits_mono (js : List ℕ) :
    ∀ A : List ℕ, ∀ j : ℕ, bitGet A j = true → bitGet (setBits A js) j = true := by
  induction js with
  | nil => intro A j h; exact h
  | cons j2 js ih =>
    intro A j h
    exact ih (set_bit A j2) j (bitGet_set_bit_mono A j j2 h)

theorem bitGet_setBits_of_mem (js : List ℕ) :
    ∀ A : List ℕ, ∀ j ∈ js, j / 8 < A.length → bitGet (setBits A js) j = true := by
  induction js with
  | nil => intro A j hj; exact absurd hj (List.not_mem_nil j)
  | cons j2 js ih =>
    intro A j hj hlt
    rcases List.mem_cons.mp hj with rfl | hj2
    · exact bitGet_setBits_mono js (set_bit A j) j (bitGet_set_bit_self A j hlt)
    · exact ih (set_bit A j2) j hj2 (by rw [set_bit_length]; exact hlt)

/-!  Field preservation and bit effects of the insert operations. -/

theorem add_alt_fields (bf : BloomFilter) (hashes : List ℕ) (nhp : ℕ) :
    (bloom_filter_add_string_alt bf hashes nhp).1.number_bits = bf.number_bits ∧
    (bloom_filter_add_string_alt bf hashes nhp).1.number_hashes = bf.number_hashes ∧
    (bloom_filter_add_string_alt bf hashes nhp).1.hash_function = bf.hash_function ∧
    (bloom_filter_add_string_alt bf hashes nhp).1.bloom.length = bf.bloom.length := by
  unfold bloom_filter_add_string_alt
  by_cases hlt : nhp < bf.number_hashes
  · rw [if_pos hlt]
    exact ⟨rfl, rfl, rfl, rfl⟩
  · rw [if_neg hlt]
    exact ⟨rfl, rfl, rfl, setBits_length _ _⟩

theorem bitGet_add_alt_mono (bf : BloomFilter) (hashes : List ℕ) (nhp j : ℕ)
    (h : bitGet bf.bloom j = true) :
    bitGet (bloom_filter_add_string_alt bf hashes nhp).1.bloom j = true := by
  unfold bloom_filter_add_string_alt
  by_cases hlt : nhp < bf.number_hashes
  · rw [if_pos hlt]
    exact h
  · rw [if_neg hlt]
    exact bitGet_setBits_mono _ _ _ h

theorem bitGet_after_add_alt (bf : BloomFilter) (hashes : List ℕ) (nhp : ℕ)
    (hge : ¬ nhp < bf.number_hashes) (hm : 0 < bf.number_bits)
    (hlen : bf.number_bits ≤ 8 * bf.bloom.length) (i : ℕ) (hi : i < bf.number_hashes) :
    bitGet (bloom_filter_add_string_alt bf hashes nhp).1.bloom
      (hashes.getD i 0 % bf.number_bits) = true := by
  unfold bloom_filter_add_string_alt
  rw [if_neg hge]
  apply bitGet_setBits_of_mem
  · exact List.mem_map.mpr ⟨i, List.mem_range.mpr hi, rfl⟩
  · have h1 : hashes.getD i 0 % bf.number_bits < bf.number_bits := Nat.mod_lt _ hm
    exact Nat.div_lt_of_lt_mul (lt_of_lt_of_le h1 hlen)

theorem check_alt_success (bf : BloomFilter) (hashes : List ℕ) (nhp : ℕ)
    (hge : ¬ nhp < bf.number_hashes)
    (hall : ∀ i, i < bf.number_hashes →
      bitGet bf.bloom (hashes.getD i 0 % bf.number_bits) = true) :
    bloom_filter_check_string_alt bf hashes nhp = BLOOM_SUCCESS := by
  unfold bloom_filter_check_string_alt
  rw [if_neg hge, if_pos]
  rw [List.all_eq_true]
  intro x hx
  have hx2 := List.mem_range.mp hx
  have hbit := (check_bit_ne_zero_iff bf.bloom (hashes.getD x 0 % bf.number_bits)).mpr
    (hall x hx2)
  simpa using hbit

theorem check_alt_failure_of_allzero (bf : BloomFilter) (hashes : List ℕ) (nhp : ℕ)
    (hge : ¬ nhp < bf.number_hashes) (hk : 1 ≤ bf.number_hashes)
    (hz : ∀ i : ℕ, bf.bloom.getD i 0 = 0) :
    bloom_filter_check_string_alt bf hashes nhp = BLOOM_FAILURE := by
  unfold bloom_filter_check_string_alt
  rw [if_neg hge, if_neg]
  rw [Bool.not_eq_true, List.all_eq_false]
  refine ⟨0, List.mem_range.mpr hk, ?_⟩
  have hcb : ∀ j : ℕ, check_bit bf.bloom j = 0 := by
    intro j
    unfold check_bit
    rw [hz]
    exact Nat.zero_and _
  simp [hcb]

theorem runAdds_preserves (m k : ℕ) (hf : HashFunction) (L : ℕ) (hs : List ℕ)
    (ops : List AddOp) :
    ∀ bf2 : BloomFilter, bf2.number_bits = m → bf2.number_hashes = k →
      bf2.hash_function = hf → bf2.bloom.length = L →
      (∀ i, i < k → bitGet bf2.bloom (hs.getD i 0 % m) = true) →
      (runAdds bf2 ops).number_bits = m ∧ (runAdds bf2 ops).number_hashes = k ∧
        (runAdds bf2 ops).hash_function = hf ∧ (runAdds bf2 ops).bloom.length = L ∧
        (∀ i, i < k → bitGet (runAdds bf2 ops).bloom (hs.getD i 0 % m) = true) := by
  induction ops with
  | nil =>
    intro bf2 h1 h2 h3 h4 h5
    exact ⟨h1, h2, h3, h4, h5⟩
  | cons op ops ih =>
    intro bf2 h1 h2 h3 h4 h5
    have hstep : ∀ hashes nhp,
        ((bloom_filter_add_string_alt bf2 hashes nhp).1.number_bits = m ∧
         (bloom_filter_add_string_alt bf2 hashes nhp).1.number_hashes = k ∧
         (bloom_filter_add_string_alt bf2 hashes nhp).1.hash_function = hf ∧
         (bloom_filter_add_string_alt bf2 hashes nhp).1.bloom.length = L ∧
         (∀ i, i < k →
           bitGet (bloom_filter_add_string_alt bf2 hashes nhp).1.bloom
             (hs.getD i 0 % m) = true)) := by
      intro hashes nhp
      obtain ⟨f1, f2, f3, f4⟩ := add_alt_fields bf2 hashes nhp
      exact ⟨f1.trans h1, f2.trans h2, f3.trans h3, f4.trans h4,
        fun i hi => bitGet_add_alt_mono bf2 hashes nhp _ (h5 i hi)⟩
    cases op with
    | str key =>
      show (runAdds (runAdds bf2 [AddOp.str key]) ops).number_bits = m ∧ _
      obtain ⟨g1, g2, g3, g4, g5⟩ :=
        hstep (bloom_filter_calculate_hashes bf2 key bf2.number_hashes) bf2.number_hashes
      exact ih _ g1 g2 g3 g4 g5
    | alt hashes nhp =>
      show (runAdds (runAdds bf2 [AddOp.alt hashes nhp]) ops).number_bits = m ∧ _
      obtain ⟨g1, g2, g3, g4, g5⟩ := hstep hashes nhp
      exact ih _ g1 g2 g3 g4 g5

/-!  Lemmas about the clearing loop. -/

theorem zeroBytes_length (n : ℕ) : ∀ A : List ℕ, (zeroBytes n A).length = A.length := by
  induction n with
  | zero => intro A; rfl
  | succ n ih =>
    intro A
    unfold zeroBytes
    rw [List.range_succ, List.foldl_append]
    show ((zeroBytes n A).set n 0).length = A.length
    rw [List.length_set]
    exact ih A

theorem zeroBytes_getD (n : ℕ) : ∀ (A : List ℕ) (i : ℕ),
    (zeroBytes n A).getD i 0 = 0 ∨ (n ≤ i ∧ (zeroBytes n A).getD i 0 = A.getD i 0) := by
  induction n with
  | zero => intro A i; exact Or.inr ⟨Nat.zero_le i, rfl⟩
  | succ n ih =>
    intro A i
    have hstep : zeroBytes (n + 1) A = (zeroBytes n A).set n 0 := by
      unfold zeroBytes
      rw [List.range_succ, List.foldl_append]
      rfl
    rw [hstep, List.getD_eq_getElem?_getD, List.getElem?_set]
    by_cases hni : n = i
    · subst hni
      by_cases hlt : n < (zeroBytes n A).length
      · rw [if_pos rfl, if_pos hlt]
        exact Or.inl rfl
      · rw [if_pos rfl, if_neg hlt]
        exact Or.inl rfl
    · rw [if_neg hni]
      rcases ih A i with h0 | ⟨hge, heq⟩
      · rw [List.getD_eq_getElem?_getD] at h0
        exact Or.inl h0
      · rw [List.getD_eq_getElem?_getD] at heq
        exact Or.inr ⟨by omega, heq⟩

/-!  Claim C1: no false negatives. -/

/-- C1: for a validly-parameterized filter (`number_hashes ≥ 1`, a positive
bit count that fits the byte array), `bloom_filter_add_string bf x`
succeeds, and after it every subsequent `bloom_filter_check_string _ x` —
across any further sequence of inserts and (pure) checks, until a clear —
returns `BLOOM_SUCCESS`. -/
theorem no_false_negatives (bf : BloomFilter) (x : List ℕ) (ops : List AddOp)
    (hm : 0 < bf.number_bits) (hk : 1 ≤ bf.number_hashes)
    (hlen : bf.number_bits ≤ 8 * bf.bloom.length) :
    (bloom_filter_add_string bf x).2 = BLOOM_SUCCESS ∧
    bloom_filter_check_string (runAdds (bloom_filter_add_string bf x).1 ops) x
      = BLOOM_SUCCESS := by
  have hge : ¬ bf.number_hashes < bf.number_hashes := lt_irrefl _
  constructor
  · unfold bloom_filter_add_string bloom_filter_add_string_alt
    rw [if_neg hge]
  · set hs := bloom_filter_calculate_hashes bf x bf.number_hashes with hhs
    have hbf1 := add_alt_fields bf hs bf.number_hashes
    have hbits1 : ∀ i, i < bf.number_hashes →
        bitGet (bloom_filter_add_string_alt bf hs bf.number_hashes).1.bloom
          (hs.getD i 0 % bf.number_bits) = true :=
      fun i hi => bitGet_after_add_alt bf hs bf.number_hashes hge hm hlen i hi
    obtain ⟨p1, p2, p3, p4, p5⟩ := runAdds_preserves bf.number_bits bf.number_hashes
      bf.hash_function bf.bloom.length hs ops
      (bloom_filter_add_string_alt bf hs bf.number_hashes).1
      hbf1.1 hbf1.2.1 hbf1.2.2.1 hbf1.2.2.2 hbits1
    set bf2 := runAdds (bloom_filter_add_string_alt bf hs bf.number_hashes).1 ops
    show bloom_filter_check_string bf2 x = BLOOM_SUCCESS
    unfold bloom_filter_check_string
    have hsame : bloom_filter_calculate_hashes bf2 x bf2.number_hashes = hs := by
      unfold bloom_filter_calculate_hashes at hhs ⊢
      rw [p3, p2, hhs]
    rw [hsame]
    apply check_alt_success
    · rw [p2]
      exact hge
    · intro i hi
      rw [p2] at hi
      rw [p1]
      exact p5 i hi

/-- Closed instance of `no_false_negatives`: a one-hash 8-bit filter, key
`[97]`, with one further insert of `[98]` in between. -/
theorem no_false_negatives_witness :
    0 < (sampleFilter 1 8 1 [0] 0).number_bits ∧
    1 ≤ (sampleFilter 1 8 1 [0] 0).number_hashes ∧
    (sampleFilter 1 8 1 [0] 0).number_bits ≤ 8 * (sampleFilter 1 8 1 [0] 0).bloom.length ∧
    ((bloom_filter_add_string (sampleFilter 1 8 1 [0] 0) [97]).2 = BLOOM_SUCCESS ∧
     bloom_filter_check_string
       (runAdds (bloom_filter_add_string (sampleFilter 1 8 1 [0] 0) [97]).1
         [AddOp.str [98]]) [97] = BLOOM_SUCCESS) :=
  ⟨by decide, by decide, by decide,
   no_false_negatives (sampleFilter 1 8 1 [0] 0) [97] [AddOp.str [98]]
     (by decide) (by decide) (by decide)⟩

/-!  Claim C4: insufficient-hash rejection. -/

/-- C4: when fewer hashes are passed than `number_hashes`, both
`bloom_filter_add_string_alt` and `bloom_filter_check_string_alt` return
`BLOOM_FAILURE`, and the insert leaves the filter — in particular
`elements_added` and every byte of the bit array — unchanged. -/
theorem insufficient_hashes_rejected (bf : BloomFilter) (hashes : List ℕ)
    (number_hashes_passed : ℕ) (h : number_hashes_passed < bf.number_hashes) :
    bloom_filter_add_string_alt bf hashes number_hashes_passed = (bf, BLOOM_FAILURE) ∧
    bloom_filter_check_string_alt bf hashes number_hashes_passed = BLOOM_FAILURE := by
  unfold bloom_filter_add_string_alt bloom_filter_check_string_alt
  rw [if_pos h, if_pos h]
  exact ⟨rfl, rfl⟩

/-- Closed instance of `insufficient_hashes_rejected`: a two-hash filter
given zero hashes. -/
theorem insufficient_hashes_rejected_witness :
    0 < (sampleFilter 2 8 1 [0] 0).number_hashes ∧
    (bloom_filter_add_string_alt (sampleFilter 2 8 1 [0] 0) [] 0
       = (sampleFilter 2 8 1 [0] 0, BLOOM_FAILURE) ∧
     bloom_filter_check_string_alt (sampleFilter 2 8 1 [0] 0) [] 0 = BLOOM_FAILURE) :=
  ⟨by decide, insufficient_hashes_rejected (sampleFilter 2 8 1 [0] 0) [] 0 (by decide)⟩

/-!  Claim C6: clear resets state. -/

/-- C6: after `bloom_filter_clear`, every byte of the bit array is 0 and
`elements_added` is 0; consequently, with `number_hashes ≥ 1`, every key —
in particular every previously inserted one — checks as `BLOOM_FAILURE`
until a new insert happens (checks are pure, so the state stays cleared). -/
theorem clear_resets_state (bf : BloomFilter) (hlen : bf.bloom.length = bf.bloom_length) :
    (bloom_filter_clear bf).elements_added = 0 ∧
    (∀ i : ℕ, (bloom_filter_clear bf).bloom.getD i 0 = 0) ∧
    (1 ≤ bf.number_hashes →
      ∀ str : List ℕ, bloom_filter_check_string (bloom_filter_clear bf) str
        = BLOOM_FAILURE) := by
  have hz : ∀ i : ℕ, (bloom_filter_clear bf).bloom.getD i 0 = 0 := by
    intro i
    show (zeroBytes bf.bloom_length bf.bloom).getD i 0 = 0
    rcases zeroBytes_getD bf.bloom_length bf.bloom i with h0 | ⟨hge, heq⟩
    · exact h0
    · rw [heq, List.getD_eq_getElem?_getD, List.getElem?_eq_none (by omega)]
      rfl
  refine ⟨rfl, hz, fun hk str => ?_⟩
  unfold bloom_filter_check_string
  apply check_alt_failure_of_allzero
  · exact lt_irrefl _
  · exact hk
  · exact hz

/-- Closed instance of `clear_resets_state`: a one-hash filter with one set
byte and one counted insert. -/
theorem clear_resets_state_witness :
    (sampleFilter 1 8 1 [255] 3).bloom.length = (sampleFilter 1 8 1 [255] 3).bloom_length ∧
    ((bloom_filter_clear (sampleFilter 1 8 1 [255] 3)).elements_added = 0 ∧
     (∀ i : ℕ, (bloom_filter_clear (sampleFilter 1 8 1 [255] 3)).bloom.getD i 0 = 0) ∧
     (1 ≤ (sampleFilter 1 8 1 [255] 3).number_hashes →
       ∀ str : List ℕ,
         bloom_filter_check_string (bloom_filter_clear (sampleFilter 1 8 1 [255] 3)) str
           = BLOOM_FAILURE)) :=
  ⟨by decide, clear_resets_state (sampleFilter 1 8 1 [255] 3) (by decide)⟩

/-!  Claim C7: what mutates `elements_added`. -/

/-- C7 is false as stated: `bloom_filter_clear` is an operation other than
insert that changes `elements_added` (here from 1 to 0, which also breaks
monotonicity). -/
theorem clear_mutates_elements_added :
    (bloom_filter_clear (sampleFilter 1 8 1 [0] 1)).elements_added ≠
      (sampleFilter 1 8 1 [0] 1).elements_added := by
  decide

/-- C7 (amended): `elements_added` is changed only by the inserts — which
never decrease it below the `uint64_t` wrap (a successful insert adds
exactly 1) — and by `bloom_filter_clear` and `bloom_filter_destroy`, which
reset it to 0; checks and exports are read-only (pure functions here). -/
theorem elements_added_mutators (bf : BloomFilter) (hashes : List ℕ) (nhp : ℕ)
    (str : List ℕ) (hea : bf.elements_added < 2 ^ 64 - 1) :
    bf.elements_added ≤ (bloom_filter_add_string_alt bf hashes nhp).1.elements_added ∧
    (bloom_filter_add_string bf str).1.elements_added = bf.elements_added + 1 ∧
    (bloom_filter_clear bf).elements_added = 0 ∧
    (bloom_filter_destroy bf).elements_added = 0 := by
  have hsucc : ∀ h2 : List ℕ, ∀ n2 : ℕ, ¬ n2 < bf.number_hashes →
      (bloom_filter_add_string_alt bf h2 n2).1.elements_added
        = bf.elements_added + 1 := by
    intro h2 n2 hge
    unfold bloom_filter_add_string_alt
    rw [if_neg hge]
    show (bf.elements_added + 1) % 2 ^ 64 = bf.elements_added + 1
    exact Nat.mod_eq_of_lt (by omega)
  refine ⟨?_, ?_, rfl, rfl⟩
  · by_cases hlt : nhp < bf.number_hashes
    · unfold bloom_filter_add_string_alt
      rw [if_pos hlt]
    · rw [hsucc hashes nhp hlt]
      omega
  · exact hsucc _ bf.number_hashes (lt_irrefl _)

/-- Closed instance of `elements_added_mutators`: a one-hash filter with 5
prior inserts, one explicit-hash insert, one keyed insert. -/
theorem elements_added_mutators_witness :
    (sampleFilter 1 8 1 [0] 5).elements_added < 2 ^ 64 - 1 ∧
    ((sampleFilter 1 8 1 [0] 5).elements_added ≤
       (bloom_filter_add_string_alt (sampleFilter 1 8 1 [0] 5) [3] 1).1.elements_added ∧
     (bloom_filter_add_string (sampleFilter 1 8 1 [0] 5) [97]).1.elements_added
       = (sampleFilter 1 8 1 [0] 5).elements_added + 1 ∧
     (bloom_filter_clear (sampleFilter 1 8 1 [0] 5)).elements_added = 0 ∧
     (bloom_filter_destroy (sampleFilter 1 8 1 [0] 5)).elements_added = 0) :=
  ⟨by decide, elements_added_mutators (sampleFilter 1 8 1 [0] 5) [3] 1 [97] (by decide)⟩

/-!  Claim C10: a zero-hash filter accepts every key. -/

/-- C10: when `number_hashes = 0`, both `bloom_filter_check_string` and
`bloom_filter_check_string_alt` (any hash count is then sufficient) return
`BLOOM_SUCCESS` for every key — the checking loop runs zero times and the
result defaults to success, even on an all-zero bit array. -/
theorem check_always_true_when_k_zero (bf : BloomFilter) (hk : bf.number_hashes = 0) :
    (∀ str : List ℕ, bloom_filter_check_string bf str = BLOOM_SUCCESS) ∧
    (∀ (hashes : List ℕ) (nhp : ℕ),
      bloom_filter_check_string_alt bf hashes nhp = BLOOM_SUCCESS) := by
  have halt : ∀ (hashes : List ℕ) (nhp : ℕ),
      bloom_filter_check_string_alt bf hashes nhp = BLOOM_SUCCESS := by
    intro hashes nhp
    unfold bloom_filter_check_string_alt
    rw [hk]
    simp
  exact ⟨fun str => halt _ _, halt⟩

/-- Closed instance of `check_always_true_when_k_zero`: a freshly
initialized zero-hash filter with an all-zero byte array accepts a key that
was never inserted. -/
theorem check_always_true_when_k_zero_witness :
    (sampleFilter 0 22 3 [0, 0, 0] 0).number_hashes = 0 ∧
    bloom_filter_check_string (sampleFilter 0 22 3 [0, 0, 0] 0) [97] = BLOOM_SUCCESS ∧
    bloom_filter_check_string_alt (sampleFilter 0 22 3 [0, 0, 0] 0) [] 0 = BLOOM_SUCCESS :=
  ⟨rfl,
   (check_always_true_when_k_zero (sampleFilter 0 22 3 [0, 0, 0] 0) rfl).1 [97],
   (check_always_true_when_k_zero (sampleFilter 0 22 3 [0, 0, 0] 0) rfl).2 [] 0⟩

/-!  Rational bounds on the logarithms used by the parameter derivation. -/

theorem log_five_fourths_bounds :
    (1670 / 7500 : ℝ) ≤ Real.log (5 / 4) ∧ Real.log (5 / 4) ≤ 1676 / 7500 := by
  have h5 : |(1 / 5 : ℝ)| < 1 := by
    rw [abs_of_pos] <;> norm_num
  have h := Real.abs_log_sub_add_sum_range_le h5 4
  have hsum : (∑ i ∈ Finset.range 4, (1 / 5 : ℝ) ^ (i + 1) / (i + 1)) = 1673 / 7500 := by
    rw [Finset.sum_range_succ, Finset.sum_range_succ, Finset.sum_range_succ,
      Finset.sum_range_succ, Finset.sum_range_zero]
    norm_num
  have habs : |(1 / 5 : ℝ)| ^ (4 + 1) / (1 - |(1 / 5 : ℝ)|) = 1 / 2500 := by
    rw [abs_of_pos] <;> norm_num
  rw [hsum, habs] at h
  have hlog : Real.log (1 - 1 / 5) = -Real.log (5 / 4) := by
    have h45 : (1 - 1 / 5 : ℝ) = (5 / 4)⁻¹ := by norm_num
    rw [h45, Real.log_inv]
  rw [hlog, abs_le] at h
  constructor <;> linarith [h.1, h.2]

theorem log_ten_ninths_bounds :
    (947 / 9000 : ℝ) ≤ Real.log (10 / 9) ∧ Real.log (10 / 9) ≤ 949 / 9000 := by
  have h10 : |(1 / 10 : ℝ)| < 1 := by
    rw [abs_of_pos] <;> norm_num
  have h := Real.abs_log_sub_add_sum_range_le h10 3
  have hsum : (∑ i ∈ Finset.range 3, (1 / 10 : ℝ) ^ (i + 1) / (i + 1)) = 79 / 750 := by
    rw [Finset.sum_range_succ, Finset.sum_range_succ, Finset.sum_range_succ,
      Finset.sum_range_zero]
    norm_num
  have habs : |(1 / 10 : ℝ)| ^ (3 + 1) / (1 - |(1 / 10 : ℝ)|) = 1 / 9000 := by
    rw [abs_of_pos] <;> norm_num
  rw [hsum, habs] at h
  have hlog : Real.log (1 - 1 / 10) = -Real.log (10 / 9) := by
    have h910 : (1 - 1 / 10 : ℝ) = (10 / 9)⁻¹ := by norm_num
    rw [h910, Real.log_inv]
  rw [hlog, abs_le] at h
  constructor <;> linarith [h.1, h.2]

theorem log_ten_eq : Real.log 10 = 3 * Real.log 2 + Real.log (5 / 4) := by
  have h10 : (10 : ℝ) = 2 ^ 3 * (5 / 4) := by norm_num
  rw [h10, Real.log_mul (by norm_num) (by norm_num), Real.log_pow]
  push_cast
  ring

/-- Compositional form of the derivation, for plugging in the three
evaluated components. -/
theorem calculate_optimal_hashes_eq (n : ℕ) (p : ℝ) (m k bl : ℕ)
    (hm : (⌈(-(n : ℝ) * Real.log p) / LOG_TWO_SQUARED⌉).toNat = m)
    (hk : (⌊Real.log 2 * (m : ℝ) / (n : ℝ) + 1 / 2⌋).toNat = k)
    (hbl : (⌈(m : ℝ) / 8⌉).toNat = bl) :
    calculate_optimal_hashes n p = (m, k, bl) := by
  unfold calculate_optimal_hashes
  dsimp only
  rw [hm, hk, hbl]

/-!  Claim C2: the derived parameters for n = 100, p = 0.01. -/

/-- C2: for `estimated_elements = 100` and `false_positive_probability =
0.01`, `calculate_optimal_hashes` — which computes `m = ceil(-n log p /
(log 2)^2)` (with the source's constant for `(log 2)^2`) and `k = round(log
2 * m / n)` — yields `number_bits = 959`, `number_hashes = 7`,
`bloom_length = 120`. -/
theorem optimal_hashes_at_100_001 :
    calculate_optimal_hashes 100 (1 / 100) = (959, 7, 120) := by
  have h54 := log_five_fourths_bounds
  have hl2a := Real.log_two_gt_d9
  have hl2b := Real.log_two_lt_d9
  have hl10 := log_ten_eq
  apply calculate_optimal_hashes_eq
  · have hlog : Real.log (1 / 100 : ℝ) = -(2 * Real.log 10) := by
      rw [one_div, Real.log_inv]
      have h100 : (100 : ℝ) = 10 ^ 2 := by norm_num
      rw [h100, Real.log_pow]
      push_cast
      ring
    have hval : (-((100 : ℕ) : ℝ) * Real.log (1 / 100)) / LOG_TWO_SQUARED
        = 200 * Real.log 10 / 0.4804530139182 := by
      rw [hlog]
      unfold LOG_TWO_SQUARED
      push_cast
      ring
    have hceil : ⌈(-((100 : ℕ) : ℝ) * Real.log (1 / 100)) / LOG_TWO_SQUARED⌉ = 959 := by
      rw [hval, Int.ceil_eq_iff]
      constructor
      · rw [lt_div_iff₀ (by norm_num : (0 : ℝ) < 0.4804530139182)]
        push_cast
        nlinarith [h54.1, hl2a]
      · rw [div_le_iff₀ (by norm_num : (0 : ℝ) < 0.4804530139182)]
        push_cast
        nlinarith [h54.2, hl2b]
    rw [hceil]
    rfl
  · have hfloor : ⌊Real.log 2 * ((959 : ℕ) : ℝ) / ((100 : ℕ) : ℝ) + 1 / 2⌋ = 7 := by
      rw [Int.floor_eq_iff]
      push_cast
      constructor
      · nlinarith [hl2a]
      · nlinarith [hl2b]
    rw [hfloor]
    rfl
  · have hceil2 : ⌈((959 : ℕ) : ℝ) / 8⌉ = 120 := by
      rw [Int.ceil_eq_iff]
      push_cast
      norm_num
    rw [hceil2]
    rfl

/-!  Claim C9: the derivation does not clamp k to 1. -/

/-- C9: the derivation stores `number_hashes` exactly as rounded, with no
floor of 1 — for `n = 100`, `p = 0.9` it yields `k = 0` (with `m = 22`) —
and an insert on a filter whose `number_hashes` is 0 runs the bit-setting
loop zero times, changing no byte, while still incrementing
`elements_added` and reporting success. -/
theorem k_not_clamped :
    (calculate_optimal_hashes 100 (9 / 10)).2.1 = 0 ∧
    ∀ (bf : BloomFilter) (hashes : List ℕ) (nhp : ℕ), bf.number_hashes = 0 →
      bloom_filter_add_string_alt bf hashes nhp
        = ({ bf with elements_added := (bf.elements_added + 1) % 2 ^ 64 },
           BLOOM_SUCCESS) := by
  constructor
  · have h109 := log_ten_ninths_bounds
    have hl2a := Real.log_two_gt_d9
    have hl2b := Real.log_two_lt_d9
    have hcalc : calculate_optimal_hashes 100 (9 / 10) = (22, 0, 3) := by
      apply calculate_optimal_hashes_eq
      · have hlog : Real.log (9 / 10 : ℝ) = -Real.log (10 / 9) := by
          have hinv : (9 / 10 : ℝ) = (10 / 9)⁻¹ := by norm_num
          rw [hinv, Real.log_inv]
        have hval : (-((100 : ℕ) : ℝ) * Real.log (9 / 10)) / LOG_TWO_SQUARED
            = 100 * Real.log (10 / 9) / 0.4804530139182 := by
          rw [hlog]
          unfold LOG_TWO_SQUARED
          push_cast
          ring
        have hceil : ⌈(-((100 : ℕ) : ℝ) * Real.log (9 / 10)) / LOG_TWO_SQUARED⌉ = 22 := by
          rw [hval, Int.ceil_eq_iff]
          constructor
          · rw [lt_div_iff₀ (by norm_num : (0 : ℝ) < 0.4804530139182)]
            push_cast
            nlinarith [h109.1]
          · rw [div_le_iff₀ (by norm_num : (0 : ℝ) < 0.4804530139182)]
            push_cast
            nlinarith [h109.2]
        rw [hceil]
        rfl
      · have hfloor : ⌊Real.log 2 * ((22 : ℕ) : ℝ) / ((100 : ℕ) : ℝ) + 1 / 2⌋ = 0 := by
          rw [Int.floor_eq_iff]
          push_cast
          constructor
          · nlinarith [hl2a]
          · nlinarith [hl2b]
        rw [hfloor]
        rfl
      · have hceil2 : ⌈((22 : ℕ) : ℝ) / 8⌉ = 3 := by
          rw [Int.ceil_eq_iff]
          push_cast
          norm_num
        rw [hceil2]
        rfl
    rw [hcalc]
  · intro bf hashes nhp hk
    unfold bloom_filter_add_string_alt
    rw [hk]
    rw [if_neg (Nat.not_lt_zero nhp)]
    rfl

/-- Closed instance of the insert clause of `k_not_clamped`: a zero-hash
filter with one non-zero byte and 4 prior inserts; the insert changes no
byte and counts up. -/
theorem k_not_clamped_witness :
    (sampleFilter 0 8 1 [7] 4).number_hashes = 0 ∧
    bloom_filter_add_string_alt (sampleFilter 0 8 1 [7] 4) [] 5
      = ({ sampleFilter 0 8 1 [7] 4 with
            elements_added := ((sampleFilter 0 8 1 [7] 4).elements_added + 1) % 2 ^ 64 },
         BLOOM_SUCCESS) :=
  ⟨rfl, k_not_clamped.2 (sampleFilter 0 8 1 [7] 4) [] 5 rfl⟩

/-!  Claim C8: the running false-positive-rate formula. -/

/-- Low 32 bits of the `int num` computation of
`bloom_filter_current_false_positive_rate`: for `number_hashes * elements_added`
below `2 ^ 31` they encode the negated product in two's complement. -/
theorem num_truncation (K E : ℕ) (h : K * E < 2 ^ 31) :
    K * (2 ^ 32 - 1) % 2 ^ 32 * E % 2 ^ 64 % 2 ^ 32 = (2 ^ 32 - K * E) % 2 ^ 32 := by
  have hdvd : (2 : ℕ) ^ 32 ∣ 2 ^ 64 := ⟨2 ^ 32, by norm_num⟩
  rw [Nat.mod_mod_of_dvd _ hdvd]
  have h1 : K * (2 ^ 32 - 1) % 2 ^ 32 * E % 2 ^ 32 = K * (2 ^ 32 - 1) * E % 2 ^ 32 :=
    (Nat.mod_modEq (K * (2 ^ 32 - 1)) (2 ^ 32)).mul_right E
  rw [h1]
  have h2 : K * (2 ^ 32 - 1) * E = K * E * 2 ^ 32 - K * E := by
    rw [mul_comm (K * (2 ^ 32 - 1)) E, ← mul_assoc, mul_comm E K, Nat.mul_sub_one]
  rw [h2]
  rcases Nat.eq_zero_or_pos (K * E) with hz | hpos
  · rw [hz]
    norm_num
  · have h3 : K * E * 2 ^ 32 - K * E = (2 ^ 32 - K * E) + (K * E - 1) * 2 ^ 32 := by
      have hle : K * E ≤ 2 ^ 32 := by omega
      have hexp : (K * E - 1) * 2 ^ 32 = K * E * 2 ^ 32 - 1 * 2 ^ 32 :=
        Nat.mul_sub_right_distrib _ _ _
      rw [one_mul] at hexp
      omega
    rw [h3, Nat.add_mul_mod_self_right]

/-- C8 (amended): `bloom_filter_current_false_positive_rate` returns
`(1 - e^(-(k * elements_added) / m)) ^ k` whenever `k * elements_added <
2 ^ 31`, so that the C `int` temporary holds the exact negated product; for
larger counter values the 32-bit truncation makes the result differ (see
the counterexample). -/
theorem current_fp_rate_formula (bf : BloomFilter)
    (h : bf.number_hashes * bf.elements_added < 2 ^ 31) :
    bloom_filter_current_false_positive_rate bf
      = (1 - Real.exp (-((bf.number_hashes * bf.elements_added : ℕ) : ℝ)
          / (bf.number_bits : ℝ))) ^ bf.number_hashes := by
  unfold bloom_filter_current_false_positive_rate
  dsimp only
  have hnum : toInt32 (bf.number_hashes * (2 ^ 32 - 1) % 2 ^ 32 * bf.elements_added % 2 ^ 64)
      = -((bf.number_hashes * bf.elements_added : ℕ) : ℤ) := by
    have hmod := num_truncation bf.number_hashes bf.elements_added h
    unfold toInt32
    rw [hmod]
    generalize hgen : bf.number_hashes * bf.elements_added = s at h ⊢
    split_ifs with hcond <;> omega
  rw [hnum]
  push_cast
  ring_nf

/-- Closed instance of `current_fp_rate_formula`: one hash, two inserts. -/
theorem current_fp_rate_formula_witness :
    (sampleFilter 1 8 1 [0] 2).number_hashes * (sampleFilter 1 8 1 [0] 2).elements_added
      < 2 ^ 31 ∧
    bloom_filter_current_false_positive_rate (sampleFilter 1 8 1 [0] 2)
      = (1 - Real.exp (-(((sampleFilter 1 8 1 [0] 2).number_hashes *
            (sampleFilter 1 8 1 [0] 2).elements_added : ℕ) : ℝ)
          / ((sampleFilter 1 8 1 [0] 2).number_bits : ℝ)))
        ^ (sampleFilter 1 8 1 [0] 2).number_hashes :=
  ⟨by decide, current_fp_rate_formula (sampleFilter 1 8 1 [0] 2) (by decide)⟩

/-- C8 is false as stated for unrestricted `elements_added`: on the filter
derived from `n = 100`, `p = 0.01` (`k = 7`, `m = 959`) after `613566757`
inserts, `7 * 613566757 = 2 ^ 32 + 3` overflows the `int` temporary to
`-3`, and the returned value `(1 - e^(-3 / 959)) ^ 7` differs from the
claimed `(1 - e^(-(7 * 613566757) / 959)) ^ 7`. -/
theorem current_fp_rate_overflow :
    bloom_filter_current_false_positive_rate
        (sampleFilter 7 959 120 (List.replicate 120 0) 613566757)
      ≠ (1 - Real.exp (-((7 * 613566757 : ℕ) : ℝ) / (959 : ℝ))) ^ 7 := by
  have h1 : bloom_filter_current_false_positive_rate
      (sampleFilter 7 959 120 (List.replicate 120 0) 613566757)
      = (1 - Real.exp (-3 / 959)) ^ 7 := by
    unfold bloom_filter_current_false_positive_rate
    dsimp only
    have hnum : toInt32 ((sampleFilter 7 959 120 (List.replicate 120 0) 613566757).number_hashes
        * (2 ^ 32 - 1) % 2 ^ 32
        * (sampleFilter 7 959 120 (List.replicate 120 0) 613566757).elements_added % 2 ^ 64)
        = -3 := by decide
    rw [hnum]
    norm_num [sampleFilter]
  rw [h1]
  have e1 : Real.exp (-((7 * 613566757 : ℕ) : ℝ) / 959) < Real.exp (-3 / 959) := by
    rw [Real.exp_lt_exp]
    push_cast
    norm_num
  have e2 : Real.exp (-3 / 959) < 1 := by
    rw [Real.exp_lt_one_iff]
    norm_num
  have e3 : 0 < Real.exp (-((7 * 613566757 : ℕ) : ℝ) / 959) := Real.exp_pos _
  have hlt : (1 - Real.exp (-3 / 959)) ^ 7
      < (1 - Real.exp (-((7 * 613566757 : ℕ) : ℝ) / 959)) ^ 7 := by
    apply pow_lt_pow_left₀ (by linarith) (by linarith) (by norm_num)
  exact ne_of_lt hlt

/-!  Claim C5: the creation-time parameter guard. -/

/-- C5: `bloom_filter_init_alt` and `bloom_filter_init_on_disk_alt` fail
with the invalid-parameters condition exactly when `estimated_elements = 0`
(`<= 0` on the unsigned argument) or the probability lies outside the open
interval (0, 1); the guard is the first statement of both functions, so on
that failure nothing has been allocated and no field has been written — the
error result carries no filter state. -/
theorem init_invalid_params_iff (n : ℕ) (p : ℝ) (p_bits : ℕ) (hf : HashFunction) :
    (bloom_filter_init_alt n p p_bits hf = .error .invalidParams
      ↔ (n = 0 ∨ p ≤ 0 ∨ 1 ≤ p)) ∧
    ∀ fopen1_ok fopen2_ok : Bool,
      bloom_filter_init_on_disk_alt n p p_bits fopen1_ok fopen2_ok hf
          = .error .invalidParams
        ↔ (n = 0 ∨ p ≤ 0 ∨ 1 ≤ p) := by
  constructor
  · unfold bloom_filter_init_alt
    by_cases hg : n = 0 ∨ p ≤ 0 ∨ 1 ≤ p
    · rw [if_pos hg]
      simp [hg]
    · rw [if_neg hg]
      simp [hg]
  · intro f1 f2
    unfold bloom_filter_init_on_disk_alt
    by_cases hg : n = 0 ∨ p ≤ 0 ∨ 1 ≤ p
    · rw [if_pos hg]
      simp [hg]
    · rw [if_neg hg]
      cases f1 <;> cases f2 <;> simp [hg]

/-!  Lemmas for the hex codec. -/

theorem toHexFixed_length (w : ℕ) : ∀ n : ℕ, (toHexFixed w n).length = w := by
  induction w with
  | zero => intro n; rfl
  | succ w ih =>
    intro n
    unfold toHexFixed
    rw [List.length_append, ih]
    rfl

theorem hexCharVal_hexDigitChar : ∀ m : ℕ, m < 16 → hexCharVal (hexDigitChar m) = m := by
  decide

theorem parseHex_foldl (w : ℕ) : ∀ n a : ℕ, n < 16 ^ w →
    (toHexFixed w n).foldl (fun a c => 16 * a + hexCharVal c) a = a * 16 ^ w + n := by
  induction w with
  | zero =>
    intro n a h
    have hn : n = 0 := by
      have : (16 : ℕ) ^ 0 = 1 := by norm_num
      omega
    subst hn
    simp [toHexFixed]
  | succ w ih =>
    intro n a h
    unfold toHexFixed
    rw [List.foldl_append]
    have hdivlt : n / 16 < 16 ^ w := by
      rw [Nat.div_lt_iff_lt_mul (by norm_num : (0 : ℕ) < 16)]
      calc n < 16 ^ (w + 1) := h
        _ = 16 ^ w * 16 := by rw [pow_succ]
    rw [ih (n / 16) a hdivlt]
    show 16 * (a * 16 ^ w + n / 16) + hexCharVal (hexDigitChar (n % 16)) = a * 16 ^ (w + 1) + n
    rw [hexCharVal_hexDigitChar (n % 16) (Nat.mod_lt _ (by norm_num))]
    rw [pow_succ, ← mul_assoc]
    have hdm := Nat.div_add_mod n 16
    generalize a * 16 ^ w = t
    omega

theorem parseHexNat_toHexFixed (w n : ℕ) (h : n < 16 ^ w) :
    parseHexNat (toHexFixed w n) = n := by
  unfold parseHexNat
  rw [parseHex_foldl w n 0 h]
  rw [zero_mul, zero_add]

theorem hexBytes_length (A : List ℕ) :
    ((A.map (fun b => toHexFixed 2 b)).flatten).length = 2 * A.length := by
  induction A with
  | nil => rfl
  | cons b A ih =>
    rw [List.map_cons, List.flatten_cons, List.length_append, ih, toHexFixed_length,
      List.length_cons]
    ring

theorem hexPairs_extract (A : List ℕ) : ∀ (i : ℕ) (R : List Char), i < A.length →
    (((A.map (fun b => toHexFixed 2 b)).flatten ++ R).drop (2 * i)).take 2
      = toHexFixed 2 (A.getD i 0) := by
  induction A with
  | nil =>
    intro i R h
    exact absurd h (by simp)
  | cons b A ih =>
    intro i R h
    rw [List.map_cons, List.flatten_cons, List.append_assoc]
    cases i with
    | zero =>
      rw [Nat.mul_zero, List.drop_zero]
      rw [List.take_append_of_le_length (le_of_eq (toHexFixed_length 2 b).symm)]
      rw [List.take_of_length_le (le_of_eq (toHexFixed_length 2 b))]
      rfl
    | succ i =>
      have hsplit : 2 * (i + 1) = (toHexFixed 2 b).length + 2 * i := by
        rw [toHexFixed_length]
        ring
      rw [hsplit, List.drop_append]
      rw [List.getD_cons_succ]
      exact ih i R (by simpa using h)

theorem tail_extract_last8 (B E A2 F : List Char) (hA2 : A2.length = 16)
    (hF : F.length = 8) :
    ((B ++ (E ++ (A2 ++ F))).drop ((B ++ (E ++ (A2 ++ F))).length - 8)).take 8 = F := by
  have hre : B ++ (E ++ (A2 ++ F)) = (B ++ E ++ A2) ++ F := by
    simp [List.append_assoc]
  rw [hre, List.drop_left' (by simp [List.length_append, hA2, hF]; omega), List.take_of_length_le hF.le]

theorem tail_extract_mid16 (B E A2 F : List Char) (hA2 : A2.length = 16)
    (hF : F.length = 8) :
    ((B ++ (E ++ (A2 ++ F))).drop ((B ++ (E ++ (A2 ++ F))).length - 24)).take 16 = A2 := by
  have hre : B ++ (E ++ (A2 ++ F)) = (B ++ E) ++ (A2 ++ F) := by
    simp [List.append_assoc]
  rw [hre, List.drop_left' (by simp [List.length_append, hA2, hF]; omega),
    List.take_append_of_le_length hA2.ge, List.take_of_length_le hA2.le]

theorem tail_extract_front16 (B E A2 F : List Char) (hE : E.length = 16)
    (hA2 : A2.length = 16) (hF : F.length = 8) :
    ((B ++ (E ++ (A2 ++ F))).drop ((B ++ (E ++ (A2 ++ F))).length - 40)).take 16 = E := by
  rw [List.drop_left' (by simp [List.length_append, hE, hA2, hF]),
    List.take_append_of_le_length hE.ge, List.take_of_length_le hE.le]

theorem getD_eq_get (A : List ℕ) (i : ℕ) (hi : i < A.length) :
    A.getD i 0 = A.get ⟨i, hi⟩ := by
  rw [List.getD_eq_getElem?_getD, List.getElem?_eq_getElem hi]
  rfl

/-!  Claim C3: hex round-trip. -/

/-- C3: exporting a consistent filter with `bloom_filter_export_hex_string`
and importing the produced string with `bloom_filter_import_hex_string_alt`
yields a filter whose bit-array bytes, `estimated_elements`,
`elements_added`, and `false_positive_probability` bit pattern are
identical to the original's.  Consistency is what `init` establishes and
every operation preserves: the byte list has length `bloom_length` and byte
values below 256 (`unsigned char`), the counters fit `uint64_t`, the
pattern fits 32 bits and decodes to the stored probability, and the derived
parameters are the ones `calculate_optimal_hashes` computes — the import
re-derives `bloom_length` from the parsed trailer, so it reads back exactly
the exported bytes. -/
theorem hex_roundtrip (bf : BloomFilter) (hf2 : HashFunction)
    (hlen : bf.bloom.length = bf.bloom_length)
    (hbytes : ∀ b ∈ bf.bloom, b < 256)
    (hest : bf.estimated_elements < 2 ^ 64)
    (hea : bf.elements_added < 2 ^ 64)
    (hbits : bf.fpp_bits < 2 ^ 32)
    (hp : bf.false_positive_probability = float32val bf.fpp_bits)
    (hparams : calculate_optimal_hashes bf.estimated_elements bf.false_positive_probability
      = (bf.number_bits, bf.number_hashes, bf.bloom_length)) :
    ∃ bf2 : BloomFilter,
      bloom_filter_import_hex_string_alt (bloom_filter_export_hex_string bf) hf2
        = some bf2 ∧
      bf2.bloom = bf.bloom ∧
      bf2.estimated_elements = bf.estimated_elements ∧
      bf2.elements_added = bf.elements_added ∧
      bf2.fpp_bits = bf.fpp_bits := by
  have hexpand : bloom_filter_export_hex_string bf
      = (bf.bloom.map (fun b => toHexFixed 2 b)).flatten
        ++ (toHexFixed 16 bf.estimated_elements
          ++ (toHexFixed 16 bf.elements_added ++ toHexFixed 8 bf.fpp_bits)) := by
    unfold bloom_filter_export_hex_string
    rw [List.append_assoc, List.append_assoc]
  have hElen := toHexFixed_length 16 bf.estimated_elements
  have hAlen := toHexFixed_length 16 bf.elements_added
  have hFlen := toHexFixed_length 8 bf.fpp_bits
  have hBlen := hexBytes_length bf.bloom
  have hhexlen : (bloom_filter_export_hex_string bf).length
      = 2 * bf.bloom.length + 40 := by
    rw [hexpand]
    simp only [List.length_append, hBlen, hElen, hAlen, hFlen]
  have hparseF : parseHexNat (((bloom_filter_export_hex_string bf).drop
      ((bloom_filter_export_hex_string bf).length - 8)).take 8) = bf.fpp_bits := by
    rw [hexpand, tail_extract_last8 _ _ _ _ hAlen hFlen]
    exact parseHexNat_toHexFixed 8 _ (lt_of_lt_of_eq hbits (by norm_num))
  have hparseA : parseHexNat (((bloom_filter_export_hex_string bf).drop
      ((bloom_filter_export_hex_string bf).length - 24)).take 16) = bf.elements_added := by
    rw [hexpand, tail_extract_mid16 _ _ _ _ hAlen hFlen]
    exact parseHexNat_toHexFixed 16 _ (lt_of_lt_of_eq hea (by norm_num))
  have hparseE : parseHexNat (((bloom_filter_export_hex_string bf).drop
      ((bloom_filter_export_hex_string bf).length - 40)).take 16)
      = bf.estimated_elements := by
    rw [hexpand, tail_extract_front16 _ _ _ _ hElen hAlen hFlen]
    exact parseHexNat_toHexFixed 16 _ (lt_of_lt_of_eq hest (by norm_num))
  have hbloomext : ∀ i : ℕ, ∀ hi : i < bf.bloom.length,
      parseHexNat (((bloom_filter_export_hex_string bf).drop (2 * i)).take 2)
        = bf.bloom.get ⟨i, hi⟩ := by
    intro i hi
    rw [hexpand, hexPairs_extract bf.bloom i _ hi, getD_eq_get bf.bloom i hi]
    exact parseHexNat_toHexFixed 2 _
      (lt_of_lt_of_eq (hbytes _ (List.get_mem bf.bloom i hi)) (by norm_num))
  unfold bloom_filter_import_hex_string_alt
  rw [if_neg (show ¬ (bloom_filter_export_hex_string bf).length % 2 ≠ 0 by
    rw [hhexlen]; omega)]
  dsimp only
  refine ⟨_, rfl, ?_, ?_, ?_, ?_⟩
  · show (List.range (calculate_optimal_hashes
        (parseHexNat (((bloom_filter_export_hex_string bf).drop
          ((bloom_filter_export_hex_string bf).length - 40)).take 16))
        (float32val (parseHexNat (((bloom_filter_export_hex_string bf).drop
          ((bloom_filter_export_hex_string bf).length - 8)).take 8)))).2.2).map
        (fun i => parseHexNat (((bloom_filter_export_hex_string bf).drop (2 * i)).take 2))
      = bf.bloom
    rw [hparseE, hparseF, ← hp, hparams]
    refine List.ext_getElem (by simp [hlen]) ?_
    intro i h1 h2
    rw [List.getElem_map, List.getElem_range]
    exact (hbloomext i h2).trans (List.get_eq_getElem _ _)
  · exact hparseE
  · exact hparseA
  · exact hparseF

/-- Closed instance of `hex_roundtrip`, at `roundtripFilter`. -/
theorem hex_roundtrip_witness :
    ∃ bf2 : BloomFilter,
      bloom_filter_import_hex_string_alt (bloom_filter_export_hex_string roundtripFilter)
          (fun _ _ => []) = some bf2 ∧
      bf2.bloom = roundtripFilter.bloom ∧
      bf2.estimated_elements = roundtripFilter.estimated_elements ∧
      bf2.elements_added = roundtripFilter.elements_added ∧
      bf2.fpp_bits = roundtripFilter.fpp_bits :=
  hex_roundtrip roundtripFilter (fun _ _ => [])
    (by simp [roundtripFilter])
    (by
      intro b hb
      have hb0 : b = 0 := List.eq_of_mem_replicate (by simpa [roundtripFilter] using hb)
      omega)
    (by norm_num [roundtripFilter])
    (by norm_num [roundtripFilter])
    (by norm_num [roundtripFilter])
    rfl
    rfl
